import Mathlib

/-!
Verification of the intersim path-projection / vehicle-dynamics engine and its
pairwise collision-detection engine.

The Python source represents "vehicle absent" as a NaN sentinel flowing through
tensor arithmetic.  The embedding represents every possibly-NaN scalar as an
`Option` value (`none` = NaN) with explicitly NaN-propagating arithmetic,
mirroring IEEE semantics: any arithmetic on NaN yields NaN, and any ordered
comparison against NaN is false.
-/

namespace Intersim

/-- Apply a binary operation to two possibly-undefined scalars, propagating
undefinedness (NaN semantics). -/
def omap2 {α β γ : Type} (f : α → β → γ) : Option α → Option β → Option γ
  | some a, some b => some (f a b)
  | _, _ => none

/-- NaN-propagating addition. -/
def oadd {α : Type} [Add α] : Option α → Option α → Option α := omap2 (· + ·)

/-- NaN-propagating subtraction. -/
def osub {α : Type} [Sub α] : Option α → Option α → Option α := omap2 (· - ·)

/-- NaN-propagating multiplication. -/
def omul {α : Type} [Mul α] : Option α → Option α → Option α := omap2 (· * ·)

/-- NaN-propagating `torch.clamp(x, 0., np.inf)`: clamp below at 0, NaN stays NaN. -/
def oclamp0 {α : Type} [LinearOrder α] [Zero α] : Option α → Option α :=
  Option.map (fun v => max v 0)

/-- NaN-propagating `torch.clamp(x, lo, hi)` (for `lo ≤ hi`): NaN stays NaN. -/
def oclamp {α : Type} [LinearOrder α] (lo hi : α) : Option α → Option α :=
  Option.map (fun v => min (max v lo) hi)

/-- IEEE-style strict greater-than against a defined bound: false when the left
operand is NaN (`NaN > m` is false in torch). -/
def ogt {α : Type} [LinearOrder α] (o : Option α) (m : α) : Bool :=
  match o with
  | some v => decide (m < v)
  | none => false

/-! ## Collision detection (collisions.py)

A frame state row is the 5-vector `[x, y, v, psi, psidot]`, each entry possibly
NaN.  A polygon is the list of its corner points. -/

/-- A single vehicle's projected state `[x, y, v, psi, psidot]`, entries possibly NaN. -/
abbrev SState := Fin 5 → Option ℝ

/-- A vehicle footprint polygon: the list of corner points, coordinates possibly NaN. -/
abbrev Polygon := List (Option ℝ × Option ℝ)

/-- Pointwise sum of two 2-D points with possibly-NaN coordinates. -/
def padd (p q : Option ℝ × Option ℝ) : Option ℝ × Option ℝ :=
  (oadd p.1 q.1, oadd p.2 q.2)

/-- Pointwise difference of two 2-D points with possibly-NaN coordinates. -/
def psub (p q : Option ℝ × Option ℝ) : Option ℝ × Option ℝ :=
  (osub p.1 q.1, osub p.2 q.2)

/-- Scale a 2-D point with possibly-NaN coordinates by a defined scalar. -/
def pscale (r : ℝ) (p : Option ℝ × Option ℝ) : Option ℝ × Option ℝ :=
  (Option.map (fun v => r * v) p.1, Option.map (fun v => r * v) p.2)

/-- state_to_polygon: build the oriented rectangle footprint of one vehicle.
Corners are listed in the source's stacking order `[ll, lr, ur, ul]` where
`lon = (cos psi, sin psi)`, `lat = (-sin psi, cos psi)`, and for example
`ul = (x, y) + length/2 * lon + width/2 * lat`. -/
noncomputable def state_to_polygon (x : SState) (length width : ℝ) : Polygon :=
  let pxy : Option ℝ × Option ℝ := (x 0, x 1)
  let c := Option.map Real.cos (x 3)
  let s := Option.map Real.sin (x 3)
  let lon : Option ℝ × Option ℝ := (c, s)
  let lat : Option ℝ × Option ℝ := (Option.map Neg.neg s, c)
  let ul := padd (padd pxy (pscale (length / 2) lon)) (pscale (width / 2) lat)
  let ur := psub (padd pxy (pscale (length / 2) lon)) (pscale (width / 2) lat)
  let ll := padd (psub pxy (pscale (length / 2) lon)) (pscale (width / 2) lat)
  let lr := psub (psub pxy (pscale (length / 2) lon)) (pscale (width / 2) lat)
  [ll, lr, ur, ul]

/-- Active rows of a frame: the enumerated `(original index, state, length, width)`
triples of the vehicles whose first state coordinate is not NaN
(`nni = ~torch.isnan(x[:,0])` in the source). -/
def activeRows (x : List SState) (lengths widths : List ℝ) :
    List (ℕ × SState × ℝ × ℝ) :=
  ((x.zip (lengths.zip widths)).enum.filter (fun e => (e.2.1 0).isSome)).map
    (fun e => (e.1, e.2.1, e.2.2.1, e.2.2.2))

/-- states_to_polygons: polygons of the active vehicles, together with the list
of their original indices (`torch.where(nni)[0]` in the source). -/
noncomputable def states_to_polygons (x : List SState) (lengths widths : List ℝ) :
    List Polygon × List ℕ :=
  (((activeRows x lengths widths).map (fun e => state_to_polygon e.2.1 e.2.2.1 e.2.2.2)),
   (activeRows x lengths widths).map (·.1))

/-- The index pairs visited by the source's double loop
`for i in range(1, nv): for j in range(i): ...`. -/
def pairList (n : ℕ) : List (ℕ × ℕ) :=
  (List.range n).flatMap (fun i => (List.range i).map (fun j => (i, j)))

/-- Write a 1 symmetrically at entries `(a, b)` and `(b, a)` of a matrix
(`c_mat[i,j] = 1; c_mat[j,i] = 1` in the source). -/
def setSym (a b : ℕ) (m : ℕ → ℕ → ℕ) : ℕ → ℕ → ℕ :=
  fun p q => if (p = a ∧ q = b) ∨ (p = b ∧ q = a) then 1 else m p q

/-- collision_matrix: start from the zero matrix; for every unordered active
pair whose polygons intersect, write 1 symmetrically at the pair's original
vehicle indices.  The geometric overlap predicate (shapely
`Polygon.intersects`) is passed in as a parameter; the matrix-building logic
never inspects polygons itself. -/
noncomputable def collision_matrix (intersects : Polygon → Polygon → Bool)
    (x : List SState) (lengths widths : List ℝ) : ℕ → ℕ → ℕ :=
  let polys := (states_to_polygons x lengths widths).1
  let inds := (states_to_polygons x lengths widths).2
  (pairList polys.length).foldl
    (fun m ij =>
      if intersects (polys.getD ij.1 []) (polys.getD ij.2 []) then
        setSym (inds.getD ij.1 0) (inds.getD ij.2 0) m
      else m)
    (fun _ _ => 0)

/-- np.count_nonzero over an `n × n` matrix. -/
def count_nonzero (n : ℕ) (m : ℕ → ℕ → ℕ) : ℕ :=
  ((Finset.range n ×ˢ Finset.range n).filter (fun p => m p.1 p.2 ≠ 0)).card

/-- count_collisions: half the number of nonzero entries of the frame's
collision matrix (the matrix being symmetric). -/
noncomputable def count_collisions (intersects : Polygon → Polygon → Bool)
    (x : List SState) (lengths widths : List ℝ) : ℕ :=
  count_nonzero lengths.length (collision_matrix intersects x lengths widths) / 2

/-- check_collisions: whether a single frame has any collision. -/
noncomputable def check_collisions (intersects : Polygon → Polygon → Bool)
    (x : List SState) (lengths widths : List ℝ) : Bool :=
  decide (count_collisions intersects x lengths widths > 0)

/-- Pointwise sum of two matrices (`cols += collision_matrix(...)`). -/
def matAdd (m1 m2 : ℕ → ℕ → ℕ) : ℕ → ℕ → ℕ :=
  fun p q => m1 p q + m2 p q

/-- Accumulated collision matrix of a trajectory: the per-frame matrices summed
entrywise, starting from the zero matrix. -/
noncomputable def trajectory_matrix (intersects : Polygon → Polygon → Bool)
    (xs : List (List SState)) (lengths widths : List ℝ) : ℕ → ℕ → ℕ :=
  xs.foldl (fun acc xt => matAdd acc (collision_matrix intersects xt lengths widths))
    (fun _ _ => 0)

/-- The `nv0` read off the trajectory tensor's shape `(T, nv0, 5)`. -/
def trajNv (xs : List (List SState)) : ℕ :=
  match xs with
  | [] => 0
  | f :: _ => f.length

/-- count_collisions_trajectory: sum the per-frame collision matrices over all
frames, then halve the number of nonzero entries of the sum. -/
noncomputable def count_collisions_trajectory (intersects : Polygon → Polygon → Bool)
    (xs : List (List SState)) (lengths widths : List ℝ) : ℕ :=
  count_nonzero (trajNv xs) (trajectory_matrix intersects xs lengths widths) / 2

/-- check_collisions_trajectory: independent per-frame collision booleans. -/
noncomputable def check_collisions_trajectory (intersects : Polygon → Polygon → Bool)
    (xs : List (List SState)) (lengths widths : List ℝ) : List Bool :=
  xs.map (fun xt => check_collisions intersects xt lengths widths)

/-! ## State projection helpers (simulator.py)

The heading wrap and the Horner polynomial evaluator live in
`intersim/utils.py`, which is not part of the two given source files; they are
modelled from the spec where marked. -/

/-- Modelled from the spec: the always-non-negative remainder
`a mod b = a - b * floor(a / b)` used by the heading wrap (missing source:
`intersim.utils.to_circle`). -/
noncomputable def realMod (a b : ℝ) : ℝ := a - b * ⌊a / b⌋

/-- Modelled from the spec: the heading wrap `((psi + pi) mod 2 pi) - pi`,
with mod always returning a non-negative remainder (missing source:
`intersim.utils.to_circle`, applied after state projection). -/
noncomputable def to_circle (psi : ℝ) : ℝ :=
  realMod (psi + Real.pi) (2 * Real.pi) - Real.pi

/-- Modelled from the spec: Horner (nested multiplication) evaluation of a
polynomial given its coefficients highest-degree-first (missing source:
`intersim.utils.horner_scheme`). -/
def horner_scheme (coefs : List ℚ) (s : ℚ) : ℚ :=
  coefs.foldl (fun acc c => acc * s + c) 0

/-- relative_state: pairwise relative poses.  Each vehicle's speed is first
decomposed into `(v cos psi, v sin psi)`, entry `(i, j)` is vehicle `j`'s
6-vector minus vehicle `i`'s, the heading-difference channel (index 4) is
wrapped, the diagonal is then filled with NaN, and finally (only when masking
is enabled) non-adjacent pairs are overwritten with NaN. -/
noncomputable def relative_state (nv : ℕ) (proj : Fin nv → SState)
    (mask : Bool) (adj : Fin nv → Fin nv → Bool) : Fin nv → Fin nv → Fin 6 → Option ℝ :=
  let vx := fun i => omul (proj i 2) (Option.map Real.cos (proj i 3))
  let vy := fun i => omul (proj i 2) (Option.map Real.sin (proj i 3))
  let p6 : Fin nv → Fin 6 → Option ℝ :=
    fun i => ![proj i 0, proj i 1, vx i, vy i, proj i 3, proj i 4]
  let rel0 := fun i j c => osub (p6 j c) (p6 i c)
  let rel1 := fun i j c =>
    if c = (4 : Fin 6) then Option.map to_circle (rel0 i j c) else rel0 i j c
  let rel2 := fun i j c => if i = j then none else rel1 i j c
  fun i j c => if mask && !(adj i j) then none else rel2 i j c

/-- generate_paths (`is_distance = True` branch, the one used by the
observation builder): future path points on the grid
`s = delta * (k+1) + s0`, evaluated per element by Horner within the vehicle's
own `smax` and by linear extrapolation from the endpoint tangent past it. -/
def generate_paths (nv : ℕ) (xpoly dxpoly ypoly dypoly : Fin nv → List ℚ)
    (smax : Fin nv → ℚ) (s0 : Fin nv → ℚ) (delta : ℚ) (n : ℕ) :
    (Fin nv → Fin n → ℚ) × (Fin nv → Fin n → ℚ) :=
  let s : Fin nv → Fin n → ℚ := fun v k => delta * ((k : ℕ) + 1) + s0 v
  let nni := fun v k => decide (s v k ≤ smax v)
  let x := fun v k => horner_scheme (xpoly v) (s v k)
  let y := fun v k => horner_scheme (ypoly v) (s v k)
  let xline := fun v k =>
    horner_scheme (xpoly v) (smax v) + (s v k - smax v) * horner_scheme (dxpoly v) (smax v)
  let yline := fun v k =>
    horner_scheme (ypoly v) (smax v) + (s v k - smax v) * horner_scheme (dypoly v) (smax v)
  (fun v k => if nni v k then x v k else xline v k,
   fun v k => if nni v k then y v k else yline v k)

/-! ## State integration (simulator.py `_next_state`, `_next_state_batch`, `step`)

The integrator is purely rational arithmetic, so it is embedded over `ℚ`
(entries possibly NaN, hence `Option ℚ`). -/

/-- Whether a possibly-NaN action component lies inside the action bounds;
false for NaN, as in torch. -/
def inBounds (lo hi : ℚ) : Option ℚ → Bool
  | some v => decide (lo ≤ v) && decide (v ≤ hi)
  | none => false

/-- Modelled from the spec: the action-space membership test
(`intersim.Box.contains`, missing source): every component within bounds. -/
def box_contains (nv : ℕ) (lo hi : ℚ) (a : Fin nv → Option ℚ) : Bool :=
  decide (∀ i, inBounds lo hi (a i) = true)

/-- The action preprocessing of `_next_state`: NaN actions are forced to zero
(only the NaN-action validation has been factored out before this), then the
whole action vector is clamped into bounds if any component lies outside the
action space. -/
def applied_action (nv : ℕ) (minAcc maxAcc : ℚ) (action : Fin nv → Option ℚ) :
    Fin nv → Option ℚ :=
  let nna := fun i => (action i).isSome
  let action1 := fun i => if nna i then action i else some 0
  if box_contains nv minAcc maxAcc action1 then action1
  else fun i => oclamp minAcc maxAcc (action1 i)

/-- The arithmetic core of `_next_state` (everything after the NaN-action
validation): zero the NaN actions, clamp the action vector into bounds if any
component is outside, semi-implicit trapezoidal Euler step with the speed
clamped non-negative, then overwrite every vehicle whose next arc position
strictly exceeds its `smax` with NaN. -/
def next_state_core (nv : ℕ) (dt minAcc maxAcc : ℚ) (smax : Fin nv → ℚ)
    (state : Fin nv → Option ℚ × Option ℚ) (action : Fin nv → Option ℚ) :
    (Fin nv → Option ℚ × Option ℚ) × (Fin nv → Option ℚ) × (Fin nv → Bool) :=
  let action2 := applied_action nv minAcc maxAcc action
  let nextv := fun i => oclamp0 (oadd (state i).2 (omul (action2 i) (some dt)))
  let nexts := fun i =>
    oadd (state i).1 (omul (some (1 / 2 * dt)) (oadd (nextv i) (state i).2))
  let exceeded := fun i => ogt (nexts i) (smax i)
  (fun i => if exceeded i then (none, none) else (nexts i, nextv i), action2, exceeded)

/-- next_state embeds `_next_state`: the single-step (non-batched) state update.  It raises
(`Except.error`) exactly when some vehicle with a defined arc state receives a
NaN action; otherwise it returns the core computation. -/
def next_state (nv : ℕ) (dt minAcc maxAcc : ℚ) (smax : Fin nv → ℚ)
    (state : Fin nv → Option ℚ × Option ℚ) (action : Fin nv → Option ℚ) :
    Except String
      ((Fin nv → Option ℚ × Option ℚ) × (Fin nv → Option ℚ) × (Fin nv → Bool)) :=
  if ∃ i, (state i).1.isSome = true ∧ (action i).isNone = true then
    Except.error "Some cars receive nan actions"
  else
    Except.ok (next_state_core nv dt minAcc maxAcc smax state action)

/-- next_state_batch embeds `_next_state_batch`: the batched state update over a leading batch dimension.
No NaN-action validation is performed and the clamp is unconditional; NaN
values propagate silently through the same arithmetic core. -/
def next_state_batch (B nv : ℕ) (dt minAcc maxAcc : ℚ) (smax : Fin nv → ℚ)
    (state : Fin B → Fin nv → Option ℚ × Option ℚ)
    (action : Fin B → Fin nv → Option ℚ) :
    (Fin B → Fin nv → Option ℚ × Option ℚ) × (Fin B → Fin nv → Option ℚ) ×
      (Fin B → Fin nv → Bool) :=
  let action2 := fun b i => oclamp minAcc maxAcc (action b i)
  let nextv := fun b i => oclamp0 (oadd (state b i).2 (omul (action2 b i) (some dt)))
  let nexts := fun b i =>
    oadd (state b i).1 (omul (some (1 / 2 * dt)) (oadd (nextv b i) (state b i).2))
  let exceeded := fun b i => ogt (nexts b i) (smax i)
  (fun b i => if exceeded b i then (none, none) else (nexts b i, nextv b i),
   action2, exceeded)

/-- The static per-episode data `step` reads: tick duration, action bounds,
per-vehicle track lengths and spawn data, and the episode start time. -/
structure SimParams (nv : ℕ) where
  dt : ℚ
  minAcc : ℚ
  maxAcc : ℚ
  smax : Fin nv → ℚ
  t0 : Fin nv → ℚ
  s0 : Fin nv → ℚ
  v0 : Fin nv → ℚ
  minT : ℚ
  deriving DecidableEq

/-- The mutable episode state `step` updates: per-vehicle arc states, the
sticky per-vehicle exceeded flags, the tick counter and the done flag. -/
structure SimState (nv : ℕ) where
  state : Fin nv → Option ℚ × Option ℚ
  exceeded : Fin nv → Bool
  ind : ℕ
  done : Bool
  deriving DecidableEq

/-- The spawn condition of `step`:
`(t0 <= t) & ~exceeded & ~nns & free` with `free` currently always true. -/
def should_spawn (nv : ℕ) (P : SimParams nv) (exceeded : Fin nv → Bool)
    (nns : Fin nv → Bool) (ind : ℕ) : Fin nv → Bool :=
  fun i => decide (P.t0 i ≤ P.minT + P.dt * (ind : ℚ)) && !exceeded i && !nns i && true

/-- step: one simulation tick in the default configuration (no collision
termination).  Asserts the episode is not done, advances the tick counter,
integrates via `_next_state`, ors the new exceeded flags into the sticky ones,
recomputes done, and spawns every vehicle meeting the spawn condition at its
track's initial arc state. -/
def step (nv : ℕ) (P : SimParams nv) (sim : SimState nv)
    (action : Fin nv → Option ℚ) : Except String (SimState nv) :=
  if sim.done then Except.error "Simulation has ended and must be reset"
  else
    let ind1 := sim.ind + 1
    let nns := fun i => (sim.state i).1.isSome
    match next_state nv P.dt P.minAcc P.maxAcc P.smax sim.state action with
    | Except.error e => Except.error e
    | Except.ok out =>
      let exceeded1 := fun i => sim.exceeded i || out.2.2 i
      let done1 := decide (∀ i, exceeded1 i = true)
      let sp := should_spawn nv P exceeded1 nns ind1
      let st1 := fun i => if sp i then (some (P.s0 i), some (P.v0 i)) else out.1 i
      Except.ok ⟨st1, exceeded1, ind1, done1⟩

/-- Iterated `step` over a list of actions, propagating any raised error. -/
def runSteps (nv : ℕ) (P : SimParams nv) :
    SimState nv → List (Fin nv → Option ℚ) → Except String (SimState nv)
  | sim, [] => Except.ok sim
  | sim, a :: rest =>
    match step nv P sim a with
    | Except.error e => Except.error e
    | Except.ok sim1 => runSteps nv P sim1 rest

/-! ## Heading wrap: range and idempotence -/

theorem to_circle_eq_fract (psi : ℝ) :
    to_circle psi =
      2 * Real.pi * Int.fract ((psi + Real.pi) / (2 * Real.pi)) - Real.pi := by
  have h2 : (2 * Real.pi) ≠ 0 := by positivity
  unfold to_circle realMod Int.fract
  rw [mul_sub, mul_div_cancel₀ _ h2]

/-- Claim C2 (amended): for every real heading, the wrapped heading lies in the
half-open interval `[-pi, pi)` (not `(-pi, pi]`), and wrapping is idempotent:
wrapping an already-wrapped value returns it unchanged. -/
theorem to_circle_mem_Ico_and_idempotent (psi : ℝ) :
    to_circle psi ∈ Set.Ico (-Real.pi) Real.pi ∧
      to_circle (to_circle psi) = to_circle psi := by
  have hpi : (0 : ℝ) < Real.pi := Real.pi_pos
  have h2 : (0 : ℝ) < 2 * Real.pi := by positivity
  have hf0 : 0 ≤ Int.fract ((psi + Real.pi) / (2 * Real.pi)) := Int.fract_nonneg _
  have hf1 : Int.fract ((psi + Real.pi) / (2 * Real.pi)) < 1 := Int.fract_lt_one _
  constructor
  · rw [to_circle_eq_fract]
    constructor
    · nlinarith
    · nlinarith
  · rw [to_circle_eq_fract psi, to_circle_eq_fract]
    have harg : (2 * Real.pi * Int.fract ((psi + Real.pi) / (2 * Real.pi)) - Real.pi
        + Real.pi) / (2 * Real.pi) = Int.fract ((psi + Real.pi) / (2 * Real.pi)) := by
      field_simp
    rw [harg, Int.fract_eq_self.mpr ⟨hf0, hf1⟩]

/-- Claim C2 (counterexample): at heading `psi = pi` the wrap returns `-pi`,
which does not lie in the claimed interval `(-pi, pi]`. -/
theorem to_circle_at_pi_leaves_Ioc :
    to_circle Real.pi = -Real.pi ∧
      to_circle Real.pi ∉ Set.Ioc (-Real.pi) Real.pi := by
  have h2 : (2 * Real.pi) ≠ 0 := by positivity
  have harg : (Real.pi + Real.pi) / (2 * Real.pi) = 1 := by
    rw [div_eq_one_iff_eq h2]; ring
  have hval : to_circle Real.pi = -Real.pi := by
    rw [to_circle_eq_fract, harg, Int.fract_one, mul_zero, zero_sub]
  refine ⟨hval, ?_⟩
  rw [hval]
  intro hmem
  exact lt_irrefl _ hmem.1

/-! ## Path generation: Horner within bounds, linear extrapolation beyond -/

/-- Claim C8: on the grid point `s = delta * (k+1) + s0`, evaluated
element-wise per vehicle and per increment: within the vehicle's own `smax`
the path position (both coordinates) is the Horner evaluation of the position
polynomial at `s`; strictly beyond it, the position is the endpoint position
plus `(s - smax)` times the endpoint tangent. -/
theorem generate_paths_horner_within_linear_beyond (nv : ℕ)
    (xpoly dxpoly ypoly dypoly : Fin nv → List ℚ) (smax s0 : Fin nv → ℚ)
    (delta : ℚ) (n : ℕ) (v : Fin nv) (k : Fin n) :
    (delta * ((k : ℕ) + 1) + s0 v ≤ smax v →
      (generate_paths nv xpoly dxpoly ypoly dypoly smax s0 delta n).1 v k =
          horner_scheme (xpoly v) (delta * ((k : ℕ) + 1) + s0 v) ∧
        (generate_paths nv xpoly dxpoly ypoly dypoly smax s0 delta n).2 v k =
          horner_scheme (ypoly v) (delta * ((k : ℕ) + 1) + s0 v)) ∧
    (smax v < delta * ((k : ℕ) + 1) + s0 v →
      (generate_paths nv xpoly dxpoly ypoly dypoly smax s0 delta n).1 v k =
          horner_scheme (xpoly v) (smax v) +
            (delta * ((k : ℕ) + 1) + s0 v - smax v) * horner_scheme (dxpoly v) (smax v) ∧
        (generate_paths nv xpoly dxpoly ypoly dypoly smax s0 delta n).2 v k =
          horner_scheme (ypoly v) (smax v) +
            (delta * ((k : ℕ) + 1) + s0 v - smax v) * horner_scheme (dypoly v) (smax v)) := by
  constructor
  · intro h
    constructor <;> simp [generate_paths, h]
  · intro h
    constructor <;> simp [generate_paths, not_le.mpr h]

/-- Claim C8 (witness): a concrete single-vehicle path with
`x(s) = s`, `y(s) = 2 s`, `smax = 10`, grid `s = 3 (k+1)`: the first grid
point (`s = 3`) evaluates by Horner, the fifth (`s = 15`) extrapolates
linearly from the endpoint. -/
theorem generate_paths_concrete_instance :
    ((generate_paths 1 (fun _ => [1, 0]) (fun _ => [1]) (fun _ => [2, 0])
        (fun _ => [2]) (fun _ => 10) (fun _ => 0) 3 5).1 0 ⟨0, by norm_num⟩ = 3 ∧
      (generate_paths 1 (fun _ => [1, 0]) (fun _ => [1]) (fun _ => [2, 0])
        (fun _ => [2]) (fun _ => 10) (fun _ => 0) 3 5).2 0 ⟨0, by norm_num⟩ = 6) ∧
    ((generate_paths 1 (fun _ => [1, 0]) (fun _ => [1]) (fun _ => [2, 0])
        (fun _ => [2]) (fun _ => 10) (fun _ => 0) 3 5).1 0 ⟨4, by norm_num⟩ = 15 ∧
      (generate_paths 1 (fun _ => [1, 0]) (fun _ => [1]) (fun _ => [2, 0])
        (fun _ => [2]) (fun _ => 10) (fun _ => 0) 3 5).2 0 ⟨4, by norm_num⟩ = 30) := by
  constructor
  · have h := (generate_paths_horner_within_linear_beyond 1 (fun _ => [1, 0])
      (fun _ => [1]) (fun _ => [2, 0]) (fun _ => [2]) (fun _ => 10) (fun _ => 0)
      3 5 0 ⟨0, by norm_num⟩).1 (by norm_num)
    refine ⟨h.1.trans ?_, h.2.trans ?_⟩ <;> norm_num [horner_scheme]
  · have h := (generate_paths_horner_within_linear_beyond 1 (fun _ => [1, 0])
      (fun _ => [1]) (fun _ => [2, 0]) (fun _ => [2]) (fun _ => 10) (fun _ => 0)
      3 5 0 ⟨4, by norm_num⟩).2 (by norm_num)
    refine ⟨h.1.trans ?_, h.2.trans ?_⟩ <;> norm_num [horner_scheme]

/-! ## Integrator lemmas -/

@[simp]
theorem omap2_none_left {α β γ : Type} (f : α → β → γ) (b : Option β) :
    omap2 f none b = none := rfl

@[simp]
theorem omap2_none_right {α β γ : Type} (f : α → β → γ) (a : Option α) :
    omap2 f a none = none := by
  cases a <;> rfl

@[simp]
theorem omap2_some_some {α β γ : Type} (f : α → β → γ) (a : α) (b : β) :
    omap2 f (some a) (some b) = some (f a b) := rfl

/-- An undefined arc-state row stays undefined through the integrator core, and
its exceeded flag comes out false. -/
theorem next_state_core_undefined_row (nv : ℕ) (dt minAcc maxAcc : ℚ)
    (smax : Fin nv → ℚ) (state : Fin nv → Option ℚ × Option ℚ)
    (action : Fin nv → Option ℚ) (i : Fin nv) (hs : state i = (none, none)) :
    (next_state_core nv dt minAcc maxAcc smax state action).1 i = (none, none) ∧
      (next_state_core nv dt minAcc maxAcc smax state action).2.2 i = false := by
  simp [next_state_core, hs, oadd, omul, oclamp0, ogt]

/-- The applied action of the integrator core at a vehicle whose requested
action is defined and within bounds is that requested action. -/
theorem applied_action_inbounds (nv : ℕ) (minAcc maxAcc : ℚ)
    (action : Fin nv → Option ℚ) (i : Fin nv) (a : ℚ) (ha : action i = some a)
    (hlo : minAcc ≤ a) (hhi : a ≤ maxAcc) :
    applied_action nv minAcc maxAcc action i = some a := by
  simp only [applied_action]
  split
  · simp [ha]
  · simp [ha, oclamp, max_eq_left hlo, min_eq_left hhi]

/-- Per-row characterization of the integrator core at a vehicle with defined
arc state and defined in-bounds action: trapezoidal update with speed clamped
non-negative, exceeded flag iff the new arc position strictly exceeds `smax`,
whole row overwritten with NaN when it does. -/
theorem next_state_core_defined_row (nv : ℕ) (dt minAcc maxAcc : ℚ)
    (smax : Fin nv → ℚ) (state : Fin nv → Option ℚ × Option ℚ)
    (action : Fin nv → Option ℚ) (i : Fin nv) (s sd a : ℚ)
    (hs : state i = (some s, some sd)) (ha : action i = some a)
    (hlo : minAcc ≤ a) (hhi : a ≤ maxAcc) :
    (next_state_core nv dt minAcc maxAcc smax state action).2.1 i = some a ∧
      (next_state_core nv dt minAcc maxAcc smax state action).2.2 i =
        decide (smax i < s + 1 / 2 * dt * (max (sd + a * dt) 0 + sd)) ∧
      (s + 1 / 2 * dt * (max (sd + a * dt) 0 + sd) > smax i →
        (next_state_core nv dt minAcc maxAcc smax state action).1 i = (none, none)) ∧
      (¬ s + 1 / 2 * dt * (max (sd + a * dt) 0 + sd) > smax i →
        (next_state_core nv dt minAcc maxAcc smax state action).1 i =
          (some (s + 1 / 2 * dt * (max (sd + a * dt) 0 + sd)),
           some (max (sd + a * dt) 0))) := by
  have hact := applied_action_inbounds nv minAcc maxAcc action i a ha hlo hhi
  refine ⟨?_, ?_, ?_, ?_⟩
  · simpa [next_state_core] using hact
  · simp [next_state_core, hs, hact, oadd, omul, oclamp0, ogt]
  · intro hgt
    simp [next_state_core, hs, hact, oadd, omul, oclamp0, ogt]
    linarith
  · intro hle
    simp [next_state_core, hs, hact, oadd, omul, oclamp0, ogt]
    linarith [not_lt.mp hle]

/-- Claim C3: for a vehicle with defined arc state `(s, sd)` and a defined
in-bounds action `a`, the single-step integrator (in the absence of the
NaN-action contract violation) returns the core computation, whose next
arc-speed is `max (sd + a * dt) 0`, whose next arc position is
`s + 1/2 * dt * (max (sd + a * dt) 0 + sd)`, whose exceeded flag is set iff
that position strictly exceeds `smax`, and whose whole arc-state row becomes
NaN when it does. -/
theorem next_state_defined_vehicle_update (nv : ℕ) (dt minAcc maxAcc : ℚ)
    (smax : Fin nv → ℚ) (state : Fin nv → Option ℚ × Option ℚ)
    (action : Fin nv → Option ℚ) (i : Fin nv) (s sd a : ℚ)
    (hok : ¬ ∃ j, (state j).1.isSome = true ∧ (action j).isNone = true)
    (hs : state i = (some s, some sd)) (ha : action i = some a)
    (hlo : minAcc ≤ a) (hhi : a ≤ maxAcc) :
    next_state nv dt minAcc maxAcc smax state action =
        Except.ok (next_state_core nv dt minAcc maxAcc smax state action) ∧
      (next_state_core nv dt minAcc maxAcc smax state action).2.1 i = some a ∧
      (next_state_core nv dt minAcc maxAcc smax state action).2.2 i =
        decide (smax i < s + 1 / 2 * dt * (max (sd + a * dt) 0 + sd)) ∧
      (s + 1 / 2 * dt * (max (sd + a * dt) 0 + sd) > smax i →
        (next_state_core nv dt minAcc maxAcc smax state action).1 i = (none, none)) ∧
      (¬ s + 1 / 2 * dt * (max (sd + a * dt) 0 + sd) > smax i →
        (next_state_core nv dt minAcc maxAcc smax state action).1 i =
          (some (s + 1 / 2 * dt * (max (sd + a * dt) 0 + sd)),
           some (max (sd + a * dt) 0))) :=
  ⟨by rw [next_state, if_neg hok],
   next_state_core_defined_row nv dt minAcc maxAcc smax state action i s sd a
     hs ha hlo hhi⟩

/-- Claim C3 (witness): `smax = 100`, `s = 99`, `sd = 5`, `dt = 1`,
action `0`: the integrator computes `s' = 104 > 100`, sets the exceeded flag,
and overwrites the whole arc-state row with NaN. -/
theorem next_state_track_exceeded_instance :
    next_state 1 1 (-10) 10 (fun _ => 100) (fun _ => (some 99, some 5))
        (fun _ => some 0) =
      Except.ok (next_state_core 1 1 (-10) 10 (fun _ => 100)
        (fun _ => (some 99, some 5)) (fun _ => some 0)) ∧
    (next_state_core 1 1 (-10) 10 (fun _ => 100) (fun _ => (some 99, some 5))
        (fun _ => some 0)).2.2 0 = true ∧
    (next_state_core 1 1 (-10) 10 (fun _ => 100) (fun _ => (some 99, some 5))
        (fun _ => some 0)).1 0 = (none, none) := by
  have h := next_state_defined_vehicle_update 1 1 (-10) 10 (fun _ => 100)
    (fun _ => (some 99, some 5)) (fun _ => some 0) 0 99 5 0 (by decide) rfl rfl
    (by norm_num) (by norm_num)
  refine ⟨h.1, ?_, h.2.2.2.1 (by norm_num)⟩
  rw [h.2.2.1]
  norm_num

/-- Claim C4: whatever the input state and the sign or magnitude of the
requested accelerations, every defined arc-speed component of the single-step
integrator's resulting state is non-negative. -/
theorem next_state_speed_nonneg (nv : ℕ) (dt minAcc maxAcc : ℚ)
    (smax : Fin nv → ℚ) (state : Fin nv → Option ℚ × Option ℚ)
    (action : Fin nv → Option ℚ)
    (r : (Fin nv → Option ℚ × Option ℚ) × (Fin nv → Option ℚ) × (Fin nv → Bool))
    (i : Fin nv) (v : ℚ)
    (hok : next_state nv dt minAcc maxAcc smax state action = Except.ok r)
    (hv : (r.1 i).2 = some v) : 0 ≤ v := by
  rw [next_state] at hok
  split at hok
  · exact absurd hok (by simp)
  · have hr : r = next_state_core nv dt minAcc maxAcc smax state action := by
      injection hok.symm
    subst hr
    simp only [next_state_core] at hv
    split at hv
    · simp at hv
    · simp only [oclamp0] at hv
      rcases Option.map_eq_some'.mp hv with ⟨u, _, hu⟩
      rw [← hu]
      exact le_max_right u 0

/-- Claim C4 (witness): a concrete step with a large negative requested
acceleration still yields arc-speed exactly `0`. -/
theorem next_state_speed_nonneg_instance :
    ((next_state_core 1 1 (-10) 10 (fun _ => 100) (fun _ => (some 1, some 2))
        (fun _ => some (-10))).1 0).2 = some 0 ∧ (0 : ℚ) ≤ 0 := by
  have hrow := (next_state_core_defined_row 1 1 (-10) 10 (fun _ => 100)
    (fun _ => (some 1, some 2)) (fun _ => some (-10)) 0 1 2 (-10) rfl rfl
    (by norm_num) (by norm_num)).2.2.2 (by norm_num)
  have hv : ((next_state_core 1 1 (-10) 10 (fun _ => 100)
      (fun _ => (some 1, some 2)) (fun _ => some (-10))).1 0).2 = some 0 := by
    rw [hrow]
    norm_num
  refine ⟨hv, ?_⟩
  exact next_state_speed_nonneg 1 1 (-10) 10 (fun _ => 100)
    (fun _ => (some 1, some 2)) (fun _ => some (-10))
    (next_state_core 1 1 (-10) 10 (fun _ => 100) (fun _ => (some 1, some 2))
      (fun _ => some (-10)))
    0 0 (by rw [next_state, if_neg]; simp) hv

/-- Claim C5: the single-step update raises exactly when some vehicle with a
defined arc state receives a NaN action, while the batched update performs no
such check: it always returns, and for a defined-state vehicle given a NaN
action it silently propagates NaN into the whole resulting arc-state row, with
the exceeded flag false. -/
theorem next_state_error_iff_batch_propagates (nv : ℕ) (dt minAcc maxAcc : ℚ)
    (smax : Fin nv → ℚ) (state : Fin nv → Option ℚ × Option ℚ)
    (action : Fin nv → Option ℚ) :
    ((∃ e, next_state nv dt minAcc maxAcc smax state action = Except.error e) ↔
      ∃ i, (state i).1.isSome = true ∧ action i = none) ∧
    (∀ (B : ℕ) (stateB : Fin B → Fin nv → Option ℚ × Option ℚ)
        (actionB : Fin B → Fin nv → Option ℚ) (b : Fin B) (i : Fin nv),
      (stateB b i).1.isSome = true → actionB b i = none →
        (next_state_batch B nv dt minAcc maxAcc smax stateB actionB).1 b i =
            (none, none) ∧
          (next_state_batch B nv dt minAcc maxAcc smax stateB actionB).2.2 b i =
            false) := by
  constructor
  · rw [next_state]
    split
    · rename_i hcond
      simp only [Option.isNone_iff_eq_none] at hcond
      exact ⟨fun _ => hcond, fun _ => ⟨_, rfl⟩⟩
    · rename_i hcond
      simp only [Option.isNone_iff_eq_none] at hcond
      constructor
      · rintro ⟨e, he⟩
        exact absurd he (by simp)
      · intro h
        exact absurd h hcond
  · intro B stateB actionB b i hdef hna
    constructor
    · simp [next_state_batch, hna, oclamp, omul, oadd, oclamp0, ogt]
    · simp [next_state_batch, hna, oclamp, omul, oadd, oclamp0, ogt]

/-- Claim C5 (witness): with one defined-state vehicle receiving a NaN action,
the single-step update raises and the batched update returns a NaN row with a
clear exceeded flag. -/
theorem next_state_error_instance :
    (∃ e, next_state 1 1 (-10) 10 (fun _ => 100) (fun _ => (some 1, some 2))
      (fun _ => none) = Except.error e) ∧
    (next_state_batch 1 1 1 (-10) 10 (fun _ => 100)
        (fun _ _ => (some 1, some 2)) (fun _ _ => none)).1 0 0 = (none, none) ∧
    (next_state_batch 1 1 1 (-10) 10 (fun _ => 100)
        (fun _ _ => (some 1, some 2)) (fun _ _ => none)).2.2 0 0 = false := by
  refine ⟨?_, ?_, ?_⟩
  · exact (next_state_error_iff_batch_propagates 1 1 (-10) 10 (fun _ => 100)
      (fun _ => (some 1, some 2)) (fun _ => none)).1.mpr ⟨0, rfl, rfl⟩
  · exact ((next_state_error_iff_batch_propagates 1 1 (-10) 10 (fun _ => 100)
      (fun _ => (some 1, some 2)) (fun _ => none)).2 1
      (fun _ _ => (some 1, some 2)) (fun _ _ => none) 0 0 rfl rfl).1
  · exact ((next_state_error_iff_batch_propagates 1 1 (-10) 10 (fun _ => 100)
      (fun _ => (some 1, some 2)) (fun _ => none)).2 1
      (fun _ _ => (some 1, some 2)) (fun _ _ => none) 0 0 rfl rfl).2

/-! ## Episode-level invariants of step -/

/-- One successful `step` keeps an exceeded vehicle's flag set and its
arc-state row NaN. -/
theorem step_exceeded_sticky (nv : ℕ) (P : SimParams nv) (sim : SimState nv)
    (a : Fin nv → Option ℚ) (sim' : SimState nv) (i : Fin nv)
    (hstep : step nv P sim a = Except.ok sim')
    (hexc : sim.exceeded i = true) (hst : sim.state i = (none, none)) :
    sim'.exceeded i = true ∧ sim'.state i = (none, none) := by
  rw [step] at hstep
  split at hstep
  · exact absurd hstep (by simp)
  · split at hstep
    · exact absurd hstep (by simp)
    · rename_i out heq
      rw [next_state] at heq
      split at heq
      · exact absurd heq (by simp)
      · have hout := Except.ok.inj heq
        subst hout
        have hrow := next_state_core_undefined_row nv P.dt P.minAcc P.maxAcc
          P.smax sim.state a i hst
        rw [show sim' = ⟨_, _, _, _⟩ from (Except.ok.inj hstep).symm]
        constructor
        · simp [hexc]
        · simp [should_spawn, hexc, hrow.1]

/-- Claim C10: the per-vehicle exceeded flag is monotone across an episode:
once a vehicle is exceeded (its arc-state row then being NaN, as `step`
guarantees when it sets the flag), every later successful `step` keeps the
flag set and the arc state NaN, and the spawn condition is never satisfied for
a vehicle whose flag is set. -/
theorem exceeded_monotone_no_respawn (nv : ℕ) (P : SimParams nv)
    (sim : SimState nv) (acts : List (Fin nv → Option ℚ)) (sim' : SimState nv)
    (i : Fin nv) (hrun : runSteps nv P sim acts = Except.ok sim')
    (hexc : sim.exceeded i = true) (hst : sim.state i = (none, none)) :
    sim'.exceeded i = true ∧ sim'.state i = (none, none) ∧
      (∀ (e nns : Fin nv → Bool) (ind : ℕ), e i = true →
        should_spawn nv P e nns ind i = false) := by
  have main : sim'.exceeded i = true ∧ sim'.state i = (none, none) := by
    induction acts generalizing sim with
    | nil =>
      rw [runSteps] at hrun
      rw [← Except.ok.inj hrun]
      exact ⟨hexc, hst⟩
    | cons a rest ih =>
      rw [runSteps] at hrun
      cases hstep : step nv P sim a with
      | error e => rw [hstep] at hrun; exact absurd hrun (by simp)
      | ok sim1 =>
        rw [hstep] at hrun
        have h1 := step_exceeded_sticky nv P sim a sim1 i hstep hexc hst
        exact ih sim1 hrun h1.1 h1.2
  exact ⟨main.1, main.2, fun e nns ind he => by simp [should_spawn, he]⟩

instance instDecEqExcept {ε α : Type} [DecidableEq ε] [DecidableEq α] :
    DecidableEq (Except ε α)
  | Except.error a, Except.error b =>
    if h : a = b then Decidable.isTrue (congrArg Except.error h)
    else Decidable.isFalse (fun hc => h (Except.error.inj hc))
  | Except.error _, Except.ok _ => Decidable.isFalse (fun hc => Except.noConfusion hc)
  | Except.ok _, Except.error _ => Decidable.isFalse (fun hc => Except.noConfusion hc)
  | Except.ok a, Except.ok b =>
    if h : a = b then Decidable.isTrue (congrArg Except.ok h)
    else Decidable.isFalse (fun hc => h (Except.ok.inj hc))

set_option maxHeartbeats 1600000 in
/-- Claim C10 (witness): a concrete two-vehicle episode in which vehicle 0 is
already exceeded; after two further steps the flag is still set, the row is
still NaN, and the spawn condition for vehicle 0 is false. -/
theorem exceeded_monotone_instance :
    (SimState.exceeded
        ⟨![(none, none), (some 0, some 0)], ![true, false], 2, false⟩
        (0 : Fin 2) = true ∧
      SimState.state ⟨![(none, none), (some 0, some 0)], ![true, false], 2, false⟩
        (0 : Fin 2) = (none, none)) ∧
    should_spawn 2
      ⟨1, -10, 10, fun _ => 10, fun _ => 100, fun _ => 0, fun _ => 0, 0⟩
      ![true, false] ![false, true] 1 0 = false := by
  have hact : applied_action 2 (-10) 10 (fun _ => some (0 : ℚ)) = fun _ => some 0 := by
    funext i
    rw [applied_action]
    split <;> simp [oclamp]
  have hstep1 : step 2 ⟨1, -10, 10, fun _ => 10, fun _ => 100, fun _ => 0, fun _ => 0, 0⟩
      ⟨![(none, none), (some 0, some 0)], ![true, false], 0, false⟩ (fun _ => some 0) =
      Except.ok ⟨![(none, none), (some 0, some 0)], ![true, false], 1, false⟩ := by
    have hns : next_state 2 1 (-10) 10 (fun _ => 10)
        ![(none, none), (some 0, some 0)] (fun _ => some 0) =
        Except.ok (next_state_core 2 1 (-10) 10 (fun _ => 10)
          ![(none, none), (some 0, some 0)] (fun _ => some 0)) := by
      rw [next_state, if_neg]
      decide
    rw [step, if_neg (by decide)]
    simp only [hns]
    refine congrArg Except.ok ?_
    simp only [SimState.mk.injEq]
    refine ⟨?_, ?_, trivial, ?_⟩
    · funext i
      fin_cases i <;>
        simp [next_state_core, hact, should_spawn, oadd, omul, oclamp0, ogt, omap2]
    · funext i
      fin_cases i <;>
        simp [next_state_core, hact, oadd, omul, oclamp0, ogt, omap2]
    · simp [Fin.forall_fin_two, next_state_core, hact, oadd, omul, oclamp0, ogt, omap2]
  have hstep2 : step 2 ⟨1, -10, 10, fun _ => 10, fun _ => 100, fun _ => 0, fun _ => 0, 0⟩
      ⟨![(none, none), (some 0, some 0)], ![true, false], 1, false⟩ (fun _ => some 0) =
      Except.ok ⟨![(none, none), (some 0, some 0)], ![true, false], 2, false⟩ := by
    have hns : next_state 2 1 (-10) 10 (fun _ => 10)
        ![(none, none), (some 0, some 0)] (fun _ => some 0) =
        Except.ok (next_state_core 2 1 (-10) 10 (fun _ => 10)
          ![(none, none), (some 0, some 0)] (fun _ => some 0)) := by
      rw [next_state, if_neg]
      decide
    rw [step, if_neg (by decide)]
    simp only [hns]
    refine congrArg Except.ok ?_
    simp only [SimState.mk.injEq]
    refine ⟨?_, ?_, trivial, ?_⟩
    · funext i
      fin_cases i <;>
        simp [next_state_core, hact, should_spawn, oadd, omul, oclamp0, ogt, omap2]
    · funext i
      fin_cases i <;>
        simp [next_state_core, hact, oadd, omul, oclamp0, ogt, omap2]
    · simp [Fin.forall_fin_two, next_state_core, hact, oadd, omul, oclamp0, ogt, omap2]
  have hrun : runSteps 2 ⟨1, -10, 10, fun _ => 10, fun _ => 100, fun _ => 0, fun _ => 0, 0⟩
      ⟨![(none, none), (some 0, some 0)], ![true, false], 0, false⟩
      [fun _ => some 0, fun _ => some 0] =
      Except.ok ⟨![(none, none), (some 0, some 0)], ![true, false], 2, false⟩ := by
    simp only [runSteps, hstep1, hstep2]
  have h := exceeded_monotone_no_respawn 2
    ⟨1, -10, 10, fun _ => 10, fun _ => 100, fun _ => 0, fun _ => 0, 0⟩
    ⟨![(none, none), (some 0, some 0)], ![true, false], 0, false⟩
    [fun _ => some 0, fun _ => some 0]
    ⟨![(none, none), (some 0, some 0)], ![true, false], 2, false⟩
    0 hrun (by decide) (by decide)
  exact ⟨⟨h.1, h.2.1⟩, h.2.2 ![true, false] ![false, true] 1 (by decide)⟩

/-! ## Collision matrix lemmas -/

theorem setSym_comm (a b : ℕ) (m : ℕ → ℕ → ℕ) (hm : ∀ p q, m p q = m q p)
    (p q : ℕ) : setSym a b m p q = setSym a b m q p := by
  unfold setSym
  by_cases h : (p = a ∧ q = b) ∨ (p = b ∧ q = a)
  · rw [if_pos h, if_pos (by tauto)]
  · rw [if_neg h, if_neg (by tauto), hm]

theorem setSym_diag_zero (a b : ℕ) (hab : a ≠ b) (m : ℕ → ℕ → ℕ)
    (hm : ∀ r, m r r = 0) (p : ℕ) : setSym a b m p p = 0 := by
  unfold setSym
  rw [if_neg, hm]
  rintro (⟨rfl, h2⟩ | ⟨rfl, h2⟩)
  · exact hab h2
  · exact hab h2.symm

theorem setSym_offrow (a b : ℕ) (S : List ℕ) (ha : a ∈ S) (hb : b ∈ S)
    (k : ℕ) (hk : k ∉ S) (m : ℕ → ℕ → ℕ) (hm : ∀ q, m k q = 0 ∧ m q k = 0)
    (q : ℕ) : setSym a b m k q = 0 ∧ setSym a b m q k = 0 := by
  unfold setSym
  constructor
  · rw [if_neg, (hm q).1]
    rintro (⟨rfl, _⟩ | ⟨rfl, _⟩)
    · exact hk ha
    · exact hk hb
  · rw [if_neg, (hm q).2]
    rintro (⟨_, rfl⟩ | ⟨_, rfl⟩)
    · exact hk hb
    · exact hk ha

theorem foldl_setSym_symm (C : ℕ × ℕ → Bool) (A B : ℕ × ℕ → ℕ)
    (l : List (ℕ × ℕ)) (m : ℕ → ℕ → ℕ) (hm : ∀ p q, m p q = m q p) (p q : ℕ) :
    (l.foldl (fun acc ij => if C ij then setSym (A ij) (B ij) acc else acc) m) p q =
      (l.foldl (fun acc ij => if C ij then setSym (A ij) (B ij) acc else acc) m) q p := by
  induction l generalizing m with
  | nil => exact hm p q
  | cons ij rest ih =>
    simp only [List.foldl_cons]
    apply ih
    intro s t
    by_cases hC : C ij = true
    · rw [if_pos hC]
      exact setSym_comm (A ij) (B ij) m hm s t
    · rw [if_neg hC]
      exact hm s t

theorem foldl_setSym_diag (C : ℕ × ℕ → Bool) (A B : ℕ × ℕ → ℕ)
    (l : List (ℕ × ℕ)) (hAB : ∀ ij ∈ l, A ij ≠ B ij) (m : ℕ → ℕ → ℕ)
    (hm : ∀ r, m r r = 0) (p : ℕ) :
    (l.foldl (fun acc ij => if C ij then setSym (A ij) (B ij) acc else acc) m) p p = 0 := by
  induction l generalizing m with
  | nil => exact hm p
  | cons ij rest ih =>
    simp only [List.foldl_cons]
    apply ih (fun e he => hAB e (List.mem_cons_of_mem ij he))
    intro r
    by_cases hC : C ij = true
    · rw [if_pos hC]
      exact setSym_diag_zero (A ij) (B ij) (hAB ij (List.mem_cons_self ij rest)) m hm r
    · rw [if_neg hC]
      exact hm r

theorem foldl_setSym_offrow (C : ℕ × ℕ → Bool) (A B : ℕ × ℕ → ℕ)
    (l : List (ℕ × ℕ)) (S : List ℕ) (hAB : ∀ ij ∈ l, A ij ∈ S ∧ B ij ∈ S)
    (k : ℕ) (hk : k ∉ S) (m : ℕ → ℕ → ℕ) (hm : ∀ q, m k q = 0 ∧ m q k = 0)
    (q : ℕ) :
    (l.foldl (fun acc ij => if C ij then setSym (A ij) (B ij) acc else acc) m) k q = 0 ∧
      (l.foldl (fun acc ij => if C ij then setSym (A ij) (B ij) acc else acc) m) q k = 0 := by
  induction l generalizing m with
  | nil => exact hm q
  | cons ij rest ih =>
    simp only [List.foldl_cons]
    apply ih (fun e he => hAB e (List.mem_cons_of_mem ij he))
    intro t
    by_cases hC : C ij = true
    · rw [if_pos hC]
      exact setSym_offrow (A ij) (B ij) S (hAB ij (List.mem_cons_self ij rest)).1
        (hAB ij (List.mem_cons_self ij rest)).2 k hk m hm t
    · rw [if_neg hC]
      exact hm t

theorem pairList_mem (n i j : ℕ) : (i, j) ∈ pairList n ↔ i < n ∧ j < i := by
  simp [pairList]

theorem enum_fst_pairwise {α : Type} (l : List α) :
    l.enum.Pairwise (fun a b => a.1 < b.1) := by
  rw [List.pairwise_iff_get]
  intro i j hij
  simp only [List.get_eq_getElem, List.getElem_enum]
  exact hij

theorem states_to_polygons_inds_pairwise (x : List SState) (L W : List ℝ) :
    (states_to_polygons x L W).2.Pairwise (· < ·) := by
  simp only [states_to_polygons, activeRows, List.map_map]
  rw [List.pairwise_map]
  exact ((enum_fst_pairwise (x.zip (L.zip W))).filter _).imp (fun h => h)

theorem states_to_polygons_length_eq (x : List SState) (L W : List ℝ) :
    (states_to_polygons x L W).1.length = (states_to_polygons x L W).2.length := by
  simp [states_to_polygons]

theorem pairwise_lt_getD (l : List ℕ) (h : l.Pairwise (· < ·)) (i j : ℕ)
    (hji : j < i) (hi : i < l.length) : l.getD j 0 < l.getD i 0 := by
  have hj : j < l.length := lt_trans hji hi
  rw [List.getD_eq_getElem l 0 hj, List.getD_eq_getElem l 0 hi]
  exact List.pairwise_iff_get.mp h ⟨j, hj⟩ ⟨i, hi⟩ hji

/-- Helper: every entry of the per-frame collision matrix is symmetric, and the
diagonal is zero. -/
theorem collision_matrix_symm (intersects : Polygon → Polygon → Bool)
    (x : List SState) (L W : List ℝ) (i j : ℕ) :
    collision_matrix intersects x L W i j = collision_matrix intersects x L W j i := by
  simp only [collision_matrix]
  exact foldl_setSym_symm _ _ _ _ (fun _ _ => 0) (fun _ _ => rfl) i j

theorem collision_matrix_diag_zero (intersects : Polygon → Polygon → Bool)
    (x : List SState) (L W : List ℝ) (i : ℕ) :
    collision_matrix intersects x L W i i = 0 := by
  simp only [collision_matrix]
  refine foldl_setSym_diag _ _ _ _ ?_ (fun _ _ => 0) (fun _ => rfl) i
  intro ij hij
  obtain ⟨a, b⟩ := ij
  rw [pairList_mem] at hij
  have hlen := states_to_polygons_length_eq x L W
  have := pairwise_lt_getD (states_to_polygons x L W).2
    (states_to_polygons_inds_pairwise x L W) a b hij.2 (hlen ▸ hij.1)
  exact (Nat.ne_of_gt this)

/-- Claim C6: for every pose input, the collision matrix (for any intersection
predicate) is symmetric and has an all-zero diagonal. -/
theorem collision_matrix_symm_zero_diag (intersects : Polygon → Polygon → Bool)
    (x : List SState) (L W : List ℝ) (i j : ℕ) :
    collision_matrix intersects x L W i j = collision_matrix intersects x L W j i ∧
      collision_matrix intersects x L W i i = 0 :=
  ⟨collision_matrix_symm intersects x L W i j,
   collision_matrix_diag_zero intersects x L W i⟩

theorem getD_mem_of_lt (l : List ℕ) (i : ℕ) (hi : i < l.length) :
    l.getD i 0 ∈ l := by
  rw [List.getD_eq_getElem l 0 hi]
  exact List.getElem_mem hi

/-- Helper: a vehicle whose first state coordinate is NaN never appears among
the active indices returned by states_to_polygons. -/
theorem not_mem_inds (x : List SState) (L W : List ℝ) (k : ℕ) (hk : k < x.length)
    (h0 : x.get ⟨k, hk⟩ 0 = none) : k ∉ (states_to_polygons x L W).2 := by
  intro hmem
  simp only [states_to_polygons, activeRows, List.map_map, List.mem_map,
    Function.comp] at hmem
  obtain ⟨e, he, hek⟩ := hmem
  rw [List.mem_filter] at he
  have henum := List.mem_enum_iff_getElem?.mp he.1
  rw [hek] at henum
  have hx : x[k]? = some e.2.1 := (List.getElem?_zip_eq_some.mp henum).1
  rw [List.getElem?_eq_getElem hk] at hx
  have hx' : x.get ⟨k, hk⟩ = e.2.1 := Option.some.inj hx
  rw [← hx', h0] at he
  simp at he

/-- Claim C7: a vehicle whose first pose coordinate is NaN is excluded from
polygon construction entirely (its original index is absent from the active
index list), and both its row and its column of the collision matrix, indexed
by original vehicle index, are identically zero. -/
theorem collision_matrix_inactive_excluded (intersects : Polygon → Polygon → Bool)
    (x : List SState) (L W : List ℝ) (k : ℕ) (hk : k < x.length)
    (h0 : x.get ⟨k, hk⟩ 0 = none) :
    k ∉ (states_to_polygons x L W).2 ∧
      ∀ j, collision_matrix intersects x L W k j = 0 ∧
        collision_matrix intersects x L W j k = 0 := by
  have hnm := not_mem_inds x L W k hk h0
  refine ⟨hnm, fun j => ?_⟩
  simp only [collision_matrix]
  refine foldl_setSym_offrow _ _ _ _ (states_to_polygons x L W).2 ?_ k hnm
    (fun _ _ => 0) (fun _ => ⟨rfl, rfl⟩) j
  intro ij hij
  obtain ⟨a, b⟩ := ij
  rw [pairList_mem] at hij
  have hlen := states_to_polygons_length_eq x L W
  exact ⟨getD_mem_of_lt _ a (hlen ▸ hij.1),
    getD_mem_of_lt _ b (hlen ▸ lt_trans hij.2 hij.1)⟩

/-- Claim C7 (witness): a two-vehicle frame whose vehicle 0 has NaN first pose
coordinate: index 0 is absent from the active list and its matrix row and
column entries vanish. -/
theorem collision_matrix_inactive_instance :
    (0 : ℕ) ∉ (states_to_polygons [fun _ => none, fun _ => some 0]
        [1, 1] [1, 1]).2 ∧
      (collision_matrix (fun _ _ => true) [fun _ => none, fun _ => some 0]
          [1, 1] [1, 1] 0 1 = 0 ∧
        collision_matrix (fun _ _ => true) [fun _ => none, fun _ => some 0]
          [1, 1] [1, 1] 1 0 = 0) := by
  have h := collision_matrix_inactive_excluded (fun _ _ => true)
    [fun _ => none, fun _ => some 0] [1, 1] [1, 1] 0 (by norm_num) rfl
  exact ⟨h.1, h.2 1⟩

/-! ## Trajectory counting -/

theorem trajectory_matrix_apply (intersects : Polygon → Polygon → Bool)
    (xs : List (List SState)) (L W : List ℝ) (p q : ℕ) :
    trajectory_matrix intersects xs L W p q =
      (xs.map (fun f => collision_matrix intersects f L W p q)).sum := by
  suffices h : ∀ (ys : List (List SState)) (acc : ℕ → ℕ → ℕ),
      (ys.foldl (fun a xt => matAdd a (collision_matrix intersects xt L W)) acc) p q =
        acc p q + (ys.map (fun f => collision_matrix intersects f L W p q)).sum by
    simpa [trajectory_matrix] using h xs (fun _ _ => 0)
  intro ys
  induction ys with
  | nil => intro acc; simp
  | cons f rest ih =>
    intro acc
    simp only [List.foldl_cons, List.map_cons, List.sum_cons]
    rw [ih]
    simp only [matAdd]
    ring

theorem trajectory_matrix_symm (intersects : Polygon → Polygon → Bool)
    (xs : List (List SState)) (L W : List ℝ) (p q : ℕ) :
    trajectory_matrix intersects xs L W p q = trajectory_matrix intersects xs L W q p := by
  rw [trajectory_matrix_apply, trajectory_matrix_apply]
  congr 1
  exact List.map_congr_left (fun f _ => collision_matrix_symm intersects f L W p q)

theorem trajectory_matrix_diag_zero (intersects : Polygon → Polygon → Bool)
    (xs : List (List SState)) (L W : List ℝ) (p : ℕ) :
    trajectory_matrix intersects xs L W p p = 0 := by
  rw [trajectory_matrix_apply]
  apply List.sum_eq_zero
  intro y hy
  rw [List.mem_map] at hy
  obtain ⟨f, _, hf⟩ := hy
  rw [← hf]
  exact collision_matrix_diag_zero intersects f L W p

/-- Helper: for a symmetric matrix with zero diagonal, np.count_nonzero counts
every unordered nonzero pair exactly twice. -/
theorem count_nonzero_eq_two_mul (n : ℕ) (m : ℕ → ℕ → ℕ)
    (hsym : ∀ p q, m p q = m q p) (hdiag : ∀ p, m p p = 0) :
    count_nonzero n m =
      2 * ((Finset.range n ×ˢ Finset.range n).filter
        (fun p => p.1 < p.2 ∧ m p.1 p.2 ≠ 0)).card := by
  classical
  unfold count_nonzero
  have hsplit : (Finset.range n ×ˢ Finset.range n).filter (fun p => m p.1 p.2 ≠ 0) =
      ((Finset.range n ×ˢ Finset.range n).filter
        (fun p => p.1 < p.2 ∧ m p.1 p.2 ≠ 0)) ∪
      ((Finset.range n ×ˢ Finset.range n).filter
        (fun p => p.2 < p.1 ∧ m p.1 p.2 ≠ 0)) := by
    rw [← Finset.filter_or]
    apply Finset.filter_congr
    intro p _
    constructor
    · intro h
      have hne : p.1 ≠ p.2 := by
        intro he
        exact h (by rw [he]; exact hdiag p.2)
      rcases lt_or_gt_of_ne hne with hlt | hgt
      · exact Or.inl ⟨hlt, h⟩
      · exact Or.inr ⟨hgt, h⟩
    · rintro (⟨_, h⟩ | ⟨_, h⟩) <;> exact h
  have hdisj : Disjoint
      ((Finset.range n ×ˢ Finset.range n).filter
        (fun p => p.1 < p.2 ∧ m p.1 p.2 ≠ 0))
      ((Finset.range n ×ˢ Finset.range n).filter
        (fun p => p.2 < p.1 ∧ m p.1 p.2 ≠ 0)) := by
    rw [Finset.disjoint_left]
    intro p hp hq
    rw [Finset.mem_filter] at hp hq
    exact absurd hq.2.1 (not_lt.mpr (le_of_lt hp.2.1))
  rw [hsplit, Finset.card_union_of_disjoint hdisj]
  have hcard : ((Finset.range n ×ˢ Finset.range n).filter
        (fun p => p.2 < p.1 ∧ m p.1 p.2 ≠ 0)).card =
      ((Finset.range n ×ˢ Finset.range n).filter
        (fun p => p.1 < p.2 ∧ m p.1 p.2 ≠ 0)).card := by
    refine Finset.card_bij' (fun p _ => (p.2, p.1)) (fun p _ => (p.2, p.1))
      ?_ ?_ (fun p _ => rfl) (fun p _ => rfl)
    · intro p hp
      rw [Finset.mem_filter] at hp ⊢
      rw [Finset.mem_product] at hp ⊢
      exact ⟨⟨hp.1.2, hp.1.1⟩, hp.2.1, by rw [hsym]; exact hp.2.2⟩
    · intro p hp
      rw [Finset.mem_filter] at hp ⊢
      rw [Finset.mem_product] at hp ⊢
      exact ⟨⟨hp.1.2, hp.1.1⟩, hp.2.1, by rw [hsym]; exact hp.2.2⟩
  rw [hcard]
  ring

/-- Claim C1 (amended): the trajectory collision count equals the number of
unordered vehicle pairs that collide in at least one frame of the trajectory
(unique colliding pairs), not the number of per-frame colliding incidents. -/
theorem count_collisions_trajectory_counts_unique_pairs
    (intersects : Polygon → Polygon → Bool) (xs : List (List SState))
    (L W : List ℝ) :
    count_collisions_trajectory intersects xs L W =
      ((Finset.range (trajNv xs) ×ˢ Finset.range (trajNv xs)).filter
        (fun p => p.1 < p.2 ∧
          ∃ f ∈ xs, collision_matrix intersects f L W p.1 p.2 ≠ 0)).card := by
  classical
  rw [count_collisions_trajectory,
    count_nonzero_eq_two_mul (trajNv xs) _
      (trajectory_matrix_symm intersects xs L W)
      (trajectory_matrix_diag_zero intersects xs L W),
    Nat.mul_div_cancel_left _ (by norm_num)]
  congr 1
  apply Finset.filter_congr
  intro p _
  apply and_congr_right
  intro _
  rw [trajectory_matrix_apply, Ne, List.sum_eq_zero_iff]
  push_neg
  constructor
  · rintro ⟨y, hy, hy0⟩
    rw [List.mem_map] at hy
    obtain ⟨f, hf, rfl⟩ := hy
    exact ⟨f, hf, hy0⟩
  · rintro ⟨f, hf, hf0⟩
    exact ⟨_, List.mem_map_of_mem _ hf, hf0⟩

/-- Claim C1 (counterexample): two vehicles that collide at exactly frames 2
and 5 of a 6-frame trajectory (both active and coincident there, vehicle 1
absent elsewhere, so the per-frame collision flags are
`[F, F, T, F, F, T]`): the trajectory collision count returned by the code is
`1`, not the `2` the claim requires. -/
theorem count_collisions_trajectory_two_frames_counterexample :
    check_collisions_trajectory (fun _ _ => true)
        [[fun _ => some 0, fun _ => none], [fun _ => some 0, fun _ => none],
         [fun _ => some 0, fun _ => some 0], [fun _ => some 0, fun _ => none],
         [fun _ => some 0, fun _ => none], [fun _ => some 0, fun _ => some 0]]
        [1, 1] [1, 1] =
      [false, false, true, false, false, true] ∧
    count_collisions_trajectory (fun _ _ => true)
        [[fun _ => some 0, fun _ => none], [fun _ => some 0, fun _ => none],
         [fun _ => some 0, fun _ => some 0], [fun _ => some 0, fun _ => none],
         [fun _ => some 0, fun _ => none], [fun _ => some 0, fun _ => some 0]]
        [1, 1] [1, 1] = 1 := by
  constructor
  · decide
  · decide

/-! ## Relative state -/

/-- Claim C9: with interaction-graph masking disabled, the relative-pose entry
at an ordered pair `(i, j)` with `i ≠ j` is vehicle `j`'s pose minus vehicle
`i`'s, with speed first decomposed into `(v cos psi, v sin psi)` so the six
channels are the componentwise differences of `(x, y, vx, vy, psi, psidot)`,
the heading-difference channel wrapped by the canonical reduction, and every
diagonal entry NaN in all six channels. -/
theorem relative_state_entries (nv : ℕ) (proj : Fin nv → SState)
    (adj : Fin nv → Fin nv → Bool) (i j : Fin nv) (hij : i ≠ j) :
    (relative_state nv proj false adj i j 0 = osub (proj j 0) (proj i 0) ∧
     relative_state nv proj false adj i j 1 = osub (proj j 1) (proj i 1) ∧
     relative_state nv proj false adj i j 2 =
       osub (omul (proj j 2) (Option.map Real.cos (proj j 3)))
            (omul (proj i 2) (Option.map Real.cos (proj i 3))) ∧
     relative_state nv proj false adj i j 3 =
       osub (omul (proj j 2) (Option.map Real.sin (proj j 3)))
            (omul (proj i 2) (Option.map Real.sin (proj i 3))) ∧
     relative_state nv proj false adj i j 4 =
       Option.map to_circle (osub (proj j 3) (proj i 3)) ∧
     relative_state nv proj false adj i j 5 = osub (proj j 4) (proj i 4)) ∧
    (∀ c, relative_state nv proj false adj i i c = none) := by
  constructor
  · refine ⟨?_, ?_, ?_, ?_, ?_, ?_⟩ <;>
      simp [relative_state, hij] <;> rfl
  · intro c
    simp [relative_state]

/-- Claim C9 (witness): a concrete two-vehicle projected state: the wrapped
heading-difference channel at the pair `(0, 1)` and the NaN diagonal at
vehicle 0. -/
theorem relative_state_entries_instance :
    relative_state 2 (fun _ _ => some 0) false (fun _ _ => false) 0 1 4 =
        Option.map to_circle (osub (some 0) (some 0)) ∧
      relative_state 2 (fun _ _ => some 0) false (fun _ _ => false) 0 0 4 = none := by
  have h := relative_state_entries 2 (fun _ _ => some 0) (fun _ _ => false) 0 1
    (by decide)
  exact ⟨h.1.2.2.2.2.1, h.2 4⟩

end Intersim
